import Mathlib

/-!
Verification development for the goldmine repository.

The repository holds two Python scripts:
  * `infra/bots/recipes/swarm_infra.py` — a CI recipe: the functions `retry`
    and `RunSteps` drive an ordered list of external build/test steps for a
    named builder, with a bounded retry for the dependency fetch, conditional
    cloud-emulator steps for "Large"/"Race" builders, a try/finally that stops
    the emulators, and a final `git diff go.mod` sanity check.
  * `PRESUBMIT.py` — presubmit lint checks with two entry points,
    `CheckChangeOnUpload` and `CheckChangeOnCommit`, both delegating to
    `CheckChange`, the former additionally running `_CheckNonAscii`.

The recipe engine (`api.step`, `api.context`, …) is external to the
repository: a step either succeeds or raises `StepFailure`.  We embed that as
an oracle `out : Nat → Bool` giving the result of the i-th step invocation of
the run (counted globally, so retried invocations of the same step can
differ), and translate the control flow of `RunSteps` directly, modelling
Python exception propagation, including the try/finally around
`run_unittests`, with explicit `match`es.
-/

/-- One recorded step invocation: the step name and whether it succeeded. -/
structure StepExec where
  name : String
  ok : Bool
deriving Repr, DecidableEq

/-- Execution state threaded through the run: the global invocation counter
and the chronological list of recorded step invocations. -/
structure St where
  k : Nat
  trace : List StepExec
deriving Repr, DecidableEq

/-- One call of `api.step`: consult the oracle at the current counter, record
the invocation, and report whether it succeeded. -/
def doStep (out : Nat → Bool) (name : String) (s : St) : St × Bool :=
  let ok := out s.k
  (⟨s.k + 1, s.trace ++ [⟨name, ok⟩]⟩, ok)

/-- `api.step` as used throughout `RunSteps`: a failing step raises
`StepFailure`, embedded as the `error` case carrying the failing step's name
(the exception) and the state after the invocation. -/
def stepE (out : Nat → Bool) (name : String) (s : St) : Except (String × St) St :=
  let (s', ok) := doStep out name s
  if ok then .ok s' else .error (name, s')

/-- A straight-line sequence of `api.step` calls: the first failure aborts
the rest (the exception propagates). -/
def runSeq (out : Nat → Bool) (names : List String) (s : St) : Except (String × St) St :=
  match names with
  | [] => .ok s
  | n :: ns =>
    match stepE out n s with
    | .ok s' => runSeq out ns s'
    | .error e => .error e

/-- Result of the `retry` helper of `swarm_infra.py`:
  * `ok` — some attempt succeeded and `retry` returned;
  * `stepFailure` — every attempt failed and the for-else re-raised the last
    captured `StepFailure` (named by `cause`);
  * `raiseNone` — the loop ran zero times, so the for-else executed
    `raise exc` with `exc` still `None` (Python raises a `TypeError`). -/
inductive RetryResult where
  | ok (s : St)
  | stepFailure (cause : String) (s : St)
  | raiseNone (s : St)
deriving Repr, DecidableEq

/-- The loop body of `retry`: `exc` is the captured exception so far
(`None` initially), `fuel` the remaining iterations of `range(attempts)`. -/
def retryGo (out : Nat → Bool) (name : String) (exc : Option String) (fuel : Nat)
    (s : St) : RetryResult :=
  match fuel with
  | 0 =>
    match exc with
    | none => .raiseNone s
    | some c => .stepFailure c s
  | fuel + 1 =>
    let (s', ok) := doStep out name s
    if ok then .ok s'
    else retryGo out name (some name) fuel s'

/-- `retry(api, attempts, …)` from `swarm_infra.py` lines 24–33. -/
def retry (out : Nat → Bool) (attempts : Nat) (name : String) (s : St) : RetryResult :=
  retryGo out name none attempts s

/-- Terminal outcome of a run of `RunSteps`: normal return, a propagated
`StepFailure` (carrying the name of the step whose exception escaped), or the
`TypeError` from `raise None` in `retry`. -/
inductive Outcome where
  | success
  | stepFailure (cause : String)
  | typeError
deriving Repr, DecidableEq

/-- Aggregate result of a run: the outcome, the recorded step invocations in
execution order, and the final value of the recipe's `env` dict (`[]` when
the run aborted before the dict was built at line 64). -/
structure RunResult where
  outcome : Outcome
  trace : List StepExec
  env : List (String × String)
deriving Repr, DecidableEq

/-- Modelled from the spec: the recipe engine (external to src/) maps the
run's terminal outcome to the process exit code — "Exit code 0 on Success,
non-zero otherwise" (spec §6). -/
def exitCode : Outcome → Nat
  | .success => 0
  | .stepFailure _ => 1
  | .typeError => 1

/-- Python dict as an insertion-ordered association list. -/
abbrev EnvMap := List (String × String)

/-- Python `d[key] = val`: update in place if the key is present, else append. -/
def dinsert (m : EnvMap) (key val : String) : EnvMap :=
  match m with
  | [] => [(key, val)]
  | (k, v) :: rest => if k = key then (key, val) :: rest else (k, v) :: dinsert rest key val

/-- Python `d[key]` lookup (as an `Option`). -/
def lookupEnv (m : EnvMap) (key : String) : Option String :=
  match m with
  | [] => none
  | (k, v) :: rest => if k = key then some v else lookupEnv rest key

/-- The keys of an environment, in dict order. -/
def envKeys (m : EnvMap) : List String := m.map Prod.fst

/-- Is `pat` a contiguous substring of the character list? -/
def isInfixB (pat : List Char) : List Char → Bool
  | [] => pat.isEmpty
  | c :: rest => pat.isPrefixOf (c :: rest) || isInfixB pat rest

/-- Python's `pat in s` substring test on strings. -/
def strContains (s pat : String) : Bool := isInfixB pat.data s.data

/-- The seven `go install` targets of `swarm_infra.py` lines 88–96. -/
def installTargets : List String :=
  ["github.com/golang/protobuf/protoc-gen-go",
   "github.com/kisielk/errcheck",
   "golang.org/x/tools/cmd/goimports",
   "golang.org/x/tools/cmd/stringer",
   "github.com/GeertJohan/go.rice/rice",
   "github.com/twitchtv/twirp/protoc-gen-twirp",
   "go.larrymyers.com/protoc-gen-twirp_typescript"]

/-- The step names `'go install %s' % target`. -/
def installSteps : List String := installTargets.map (fun t => "go install " ++ t)

def dlName : String := "go mod download"
def startName : String := "start the cloud emulators"
def stopName : String := "stop the cloud emulators"
def ruName : String := "run_unittests"

/-- The `env` dict built at `swarm_infra.py` lines 64–81 (paths joined with
`/` from the start dir, `PATH` entries joined with the `:` path separator;
`%(PATH)s` is the recipe engine's placeholder for the inherited `PATH`). -/
def mkEnv (sd : String) : EnvMap :=
  [("CHROME_HEADLESS", "1"),
   ("DOCKER_CONFIG", "/home/chrome-bot/.docker"),
   ("GOCACHE", sd ++ "/cache/go_cache"),
   ("GOFLAGS", "-mod=readonly"),
   ("GOROOT", sd ++ "/go/go"),
   ("GOPATH", sd ++ "/cache/gopath"),
   ("GIT_USER_AGENT", "git/1.9.1"),
   ("PATH", String.intercalate ":"
     [sd ++ "/go/go/bin",
      sd ++ "/cache/gopath/bin",
      sd ++ "/gcloud_linux/bin",
      sd ++ "/protoc/bin",
      sd ++ "/node/node/bin",
      sd ++ "/cockroachdb",
      "%(PATH)s"])]

/-- The five emulator host variables assigned at lines 106–110. -/
def emulatorHosts : List (String × String) :=
  [("DATASTORE_EMULATOR_HOST", "localhost:8891"),
   ("BIGTABLE_EMULATOR_HOST", "localhost:8892"),
   ("PUBSUB_EMULATOR_HOST", "localhost:8893"),
   ("FIRESTORE_EMULATOR_HOST", "localhost:8894"),
   ("COCKROACHDB_EMULATOR_HOST", "localhost:8895")]

/-- The dict assignments of lines 106–110, in order. -/
def injectEmulators (env : EnvMap) : EnvMap :=
  emulatorHosts.foldl (fun e kv => dinsert e kv.1 kv.2) env

/-- The `run_unittests` command of lines 121–129, including the
branch-selected flags (`elif` chain on the builder name). -/
def unittestCmd (builder : String) : List String :=
  let base := ["go", "run", "./run_unittests.go", "--alsologtostderr"]
  if strContains builder "Race" then base ++ ["--race", "--large", "--medium", "--small"]
  else if strContains builder "Large" then base ++ ["--large"]
  else if strContains builder "Medium" then base ++ ["--medium"]
  else base ++ ["--small"]

/-- The five build/test branches of lines 117–129. -/
inductive Branch where
  | build
  | race
  | large
  | medium
  | small
deriving Repr, DecidableEq

/-- Which branch lines 117–129 select for a builder name: the outer
`if 'Build' in builder` first, then the `elif` chain on the test flags. -/
def selectBranch (builder : String) : Branch :=
  if strContains builder "Build" then .build
  else if strContains builder "Race" then .race
  else if strContains builder "Large" then .large
  else if strContains builder "Medium" then .medium
  else .small

/-- For non-Build builders, the flags appended to the `run_unittests`
command are exactly those of the selected branch: `selectBranch` is the
code's branch selector. -/
theorem unittestCmd_by_branch (builder : String)
    (h : strContains builder "Build" = false) :
    unittestCmd builder
      = ["go", "run", "./run_unittests.go", "--alsologtostderr"]
        ++ (match selectBranch builder with
            | .race => ["--race", "--large", "--medium", "--small"]
            | .large => ["--large"]
            | .medium => ["--medium"]
            | _ => ["--small"]) := by
  rcases hR : strContains builder "Race" <;>
    rcases hL : strContains builder "Large" <;>
      rcases hM : strContains builder "Medium" <;>
        simp [unittestCmd, selectBranch, h, hR, hL, hM]

/-- The final `git diff go.mod` sanity check (lines 139–141) and normal
return. -/
def finishRun (out : Nat → Bool) (env : EnvMap) (s : St) : RunResult :=
  match stepE out "git diff go.mod" s with
  | .error (c, s') => ⟨.stepFailure c, s'.trace, env⟩
  | .ok s' => finishOk env s'
where
  finishOk (env : EnvMap) (s' : St) : RunResult := ⟨.success, s'.trace, env⟩

/-- Lines 117–136: `make all` for Build builders; otherwise `run_unittests`
inside `try`, with the `finally` stopping the emulators for Large/Race
builders.  A `StepFailure` raised by the `finally`'s stop step replaces the
in-flight exception (Python `finally` semantics); if the `finally` completes
normally the original exception continues to propagate. -/
def runBranch (builder : String) (out : Nat → Bool) (env : EnvMap) (s : St) : RunResult :=
  if strContains builder "Build" then
    match stepE out "make all" s with
    | .error (c, s') => ⟨.stepFailure c, s'.trace, env⟩
    | .ok s' => finishRun out env s'
  else
    match stepE out ruName s with
    | .ok s' =>
      if strContains builder "Large" || strContains builder "Race" then
        match stepE out stopName s' with
        | .error (c2, s2) => ⟨.stepFailure c2, s2.trace, env⟩
        | .ok s2 => finishRun out env s2
      else finishRun out env s'
    | .error (c, s') =>
      if strContains builder "Large" || strContains builder "Race" then
        match stepE out stopName s' with
        | .error (c2, s2) => ⟨.stepFailure c2, s2.trace, env⟩
        | .ok s2 => ⟨.stepFailure c, s2.trace, env⟩
      else ⟨.stepFailure c, s'.trace, env⟩

/-- The value of the `env` dict once lines 106–115 have executed: the
emulator host overrides (only for Large/Race builders), then
`SKIABOT_TEST_DEPOT_TOOLS`, then the `PATH` extension with the depot_tools
dir (lines 113–115). -/
def envFinal (builder sd : String) : EnvMap :=
  let env := mkEnv sd
  let env1 := if strContains builder "Large" || strContains builder "Race" then
                injectEmulators env
              else env
  let env2 := dinsert env1 "SKIABOT_TEST_DEPOT_TOOLS" (sd ++ "/recipe_bundle/depot_tools")
  dinsert env2 "PATH"
    ((lookupEnv env2 "PATH").getD "" ++ ":" ++ (sd ++ "/recipe_bundle/depot_tools"))

/-- `RunSteps(api)` of `swarm_infra.py` lines 36–141, as a function of the
builder name, the start dir, and the step-outcome oracle.  The path hack and
path constants (lines 40–53) are pure setup; every `api.step` call, the
`retry` of `go mod download`, the conditional emulator start plus env
assignments, the branch of lines 117–136, and the final `git diff go.mod`
are translated in source order with Python exception propagation. -/
def RunSteps (builder sd : String) (out : Nat → Bool) : RunResult :=
  match runSeq out ["git init", "git add", "git commit"] ⟨0, []⟩ with
  | .error (c, s) => ⟨.stepFailure c, s.trace, []⟩
  | .ok s1 =>
  let env := mkEnv sd
  match stepE out "which go" s1 with
  | .error (c, s) => ⟨.stepFailure c, s.trace, env⟩
  | .ok s2 =>
  match retry out 3 dlName s2 with
  | .raiseNone s => ⟨.typeError, s.trace, env⟩
  | .stepFailure c s => ⟨.stepFailure c, s.trace, env⟩
  | .ok s3 =>
  match runSeq out installSteps s3 with
  | .error (c, s) => ⟨.stepFailure c, s.trace, env⟩
  | .ok s4 =>
  match (if strContains builder "Large" || strContains builder "Race" then
           stepE out startName s4
         else .ok s4) with
  | .error (c, s) => ⟨.stepFailure c, s.trace, env⟩
  | .ok s5 => runBranch builder out (envFinal builder sd) s5

/-! ## Basic execution lemmas -/

theorem stepE_ok (out : Nat → Bool) (name : String) (s : St) (h : out s.k = true) :
    stepE out name s = .ok ⟨s.k + 1, s.trace ++ [⟨name, true⟩]⟩ := by
  simp [stepE, doStep, h]

theorem runSeq_all_ok (out : Nat → Bool) (h : ∀ i, out i = true) (names : List String)
    (s : St) :
    runSeq out names s = .ok ⟨s.k + names.length, s.trace ++ names.map (fun n => ⟨n, true⟩)⟩ := by
  induction names generalizing s with
  | nil => simp [runSeq]
  | cons n ns ih =>
    simp only [runSeq, stepE, doStep, h, if_true, List.map_cons, List.length_cons]
    rw [ih]
    simp
    omega

/-- The declaration order of the steps of `RunSteps` (src lines 57–141):
the three git-init steps, `which go`, the retried `go mod download`, the
seven `go install` steps, the conditional emulator start (declared at line
105, before the build/test branch), the branch-selected build/test step, the
conditional emulator stop (declared in the `finally` at line 136, only on the
non-Build branch), and finally `git diff go.mod`. -/
def declaredSteps (builder : String) : List String :=
  ["git init", "git add", "git commit", "which go", dlName]
  ++ installSteps
  ++ (if strContains builder "Large" || strContains builder "Race" then [startName] else [])
  ++ (if strContains builder "Build" then ["make all"] else [ruName])
  ++ (if (strContains builder "Large" || strContains builder "Race")
         && !strContains builder "Build" then [stopName] else [])
  ++ ["git diff go.mod"]

/-- C1: for every step list in which every executed step succeeds, the run's
outcome is Success (process exit code 0) and the steps are executed in
exactly their declaration order. -/
theorem run_all_success_trace (builder sd : String) (out : Nat → Bool)
    (h : ∀ i, out i = true) :
    (RunSteps builder sd out).outcome = .success ∧
    exitCode (RunSteps builder sd out).outcome = 0 ∧
    (RunSteps builder sd out).trace
      = (declaredSteps builder).map (fun n => ⟨n, true⟩) := by
  cases hB : strContains builder "Build" <;>
    cases hL : strContains builder "Large" <;>
      cases hR : strContains builder "Race" <;>
        simp [RunSteps, runSeq, stepE, doStep, retry, retryGo, runBranch, finishRun,
          finishRun.finishOk, installSteps, installTargets, declaredSteps, exitCode,
          h, hB, hL, hR]

/-- Witness for C1 at a concrete builder and oracle. -/
theorem run_all_success_trace_witness :
    (RunSteps "Infra-PerCommit-Small" "sd" (fun _ => true)).outcome = .success ∧
    exitCode (RunSteps "Infra-PerCommit-Small" "sd" (fun _ => true)).outcome = 0 ∧
    (RunSteps "Infra-PerCommit-Small" "sd" (fun _ => true)).trace
      = (declaredSteps "Infra-PerCommit-Small").map (fun n => ⟨n, true⟩) :=
  run_all_success_trace "Infra-PerCommit-Small" "sd" (fun _ => true) (fun _ => rfl)

/-! ## Trace predicates for the cleanup and halting claims -/

/-- Number of recorded invocations of the emulator-stop cleanup step. -/
def stopCount (tr : List StepExec) : Nat :=
  (tr.filter (fun e => e.name == stopName)).length

/-- Did the emulator-start step run and succeed (the resource was acquired)? -/
def startedOk (tr : List StepExec) : Bool :=
  tr.any (fun e => e.name == startName && e.ok)

/-- After the first failing step that is neither a retried `go mod download`
attempt nor itself the cleanup step, only cleanup (emulator-stop) invocations
may follow. -/
def afterFailOnlyStop : List StepExec → Bool
  | [] => true
  | e :: rest =>
    if e.ok then afterFailOnlyStop rest
    else if e.name == dlName then afterFailOnlyStop rest
    else rest.all (fun x => x.name == stopName)

/-- The claim's literal halting property: after ANY failing step, only
cleanup (emulator-stop) invocations may follow. -/
def haltsAfterFirstFail : List StepExec → Bool
  | [] => true
  | e :: rest =>
    if e.ok then haltsAfterFirstFail rest
    else rest.all (fun x => x.name == stopName)

theorem stopCount_append (a b : List StepExec) :
    stopCount (a ++ b) = stopCount a + stopCount b := by
  simp [stopCount, List.filter_append]

theorem startedOk_append (a b : List StepExec) :
    startedOk (a ++ b) = (startedOk a || startedOk b) := by
  simp [startedOk, List.any_append]

theorem stopCount_zero {tr : List StepExec} (h : ∀ e ∈ tr, e.name ≠ stopName) :
    stopCount tr = 0 := by
  simp only [stopCount, List.length_eq_zero, List.filter_eq_nil_iff]
  intro e he
  simpa using h e he

theorem startedOk_false {tr : List StepExec} (h : ∀ e ∈ tr, e.name ≠ startName) :
    startedOk tr = false := by
  simp only [startedOk, List.any_eq_false]
  intro e he
  simp [h e he]

theorem afterFail_append {a : List StepExec} (b : List StepExec)
    (h : ∀ e ∈ a, e.ok = true ∨ e.name = dlName) :
    afterFailOnlyStop (a ++ b) = afterFailOnlyStop b := by
  induction a with
  | nil => rfl
  | cons e rest ih =>
    have he := h e (by simp)
    rcases he with hok | hdl
    · simp [afterFailOnlyStop, hok, ih fun x hx => h x (by simp [hx])]
    · simp only [List.cons_append, afterFailOnlyStop, hdl]
      rcases hcase : e.ok <;>
        simp [hcase, ih fun x hx => h x (by simp [hx])]

theorem afterFail_singleton (e : StepExec) : afterFailOnlyStop [e] = true := by
  rcases h : e.ok <;> rcases hn : e.name == dlName <;>
    simp [afterFailOnlyStop, h, hn]


/-! ## Characterization of the execution combinators -/

theorem stepE_cases (out : Nat → Bool) (name : String) (s : St) :
    (out s.k = true ∧ stepE out name s = .ok ⟨s.k + 1, s.trace ++ [⟨name, true⟩]⟩) ∨
    (out s.k = false ∧
      stepE out name s = .error (name, ⟨s.k + 1, s.trace ++ [⟨name, false⟩]⟩)) := by
  cases h : out s.k <;> simp [stepE, doStep, h]

theorem runSeq_ok_char (out : Nat → Bool) :
    ∀ (names : List String) (s s' : St), runSeq out names s = .ok s' →
    ∃ t, s'.trace = s.trace ++ t ∧ (∀ e ∈ t, e.ok = true) ∧
      (∀ e ∈ t, e.name ∈ names) := by
  intro names
  induction names with
  | nil =>
    intro s s' h
    simp only [runSeq, Except.ok.injEq] at h
    exact ⟨[], by simp [h], by simp, by simp⟩
  | cons n ns ih =>
    intro s s' h
    simp only [runSeq] at h
    rcases stepE_cases out n s with ⟨_, heq⟩ | ⟨_, heq⟩
    · rw [heq] at h
      obtain ⟨t, ht, hok, hmem⟩ := ih _ _ h
      refine ⟨⟨n, true⟩ :: t, by simp [ht], ?_, ?_⟩
      · intro e he
        rcases List.mem_cons.mp he with rfl | he
        · rfl
        · exact hok e he
      · intro e he
        rcases List.mem_cons.mp he with rfl | he
        · simp
        · exact List.mem_cons_of_mem _ (hmem e he)
    · rw [heq] at h
      cases h

theorem runSeq_error_char (out : Nat → Bool) :
    ∀ (names : List String) (s : St) (c : String) (s' : St),
    runSeq out names s = .error (c, s') →
    ∃ t, s'.trace = s.trace ++ t ++ [⟨c, false⟩] ∧ (∀ e ∈ t, e.ok = true) ∧
      (∀ e ∈ t, e.name ∈ names) ∧ c ∈ names := by
  intro names
  induction names with
  | nil => intro s c s' h; simp [runSeq] at h
  | cons n ns ih =>
    intro s c s' h
    simp only [runSeq] at h
    rcases stepE_cases out n s with ⟨_, heq⟩ | ⟨_, heq⟩
    · rw [heq] at h
      obtain ⟨t, ht, hok, hmem, hc⟩ := ih _ _ _ h
      refine ⟨⟨n, true⟩ :: t, by simp [ht], ?_, ?_, List.mem_cons_of_mem _ hc⟩
      · intro e he
        rcases List.mem_cons.mp he with rfl | he
        · rfl
        · exact hok e he
      · intro e he
        rcases List.mem_cons.mp he with rfl | he
        · simp
        · exact List.mem_cons_of_mem _ (hmem e he)
    · rw [heq] at h
      simp only [Except.error.injEq, Prod.mk.injEq] at h
      obtain ⟨rfl, rfl⟩ := h
      exact ⟨[], by simp, by simp, by simp, by simp⟩

theorem retryGo_succ_ok (out : Nat → Bool) (name : String) (exc : Option String)
    (n : Nat) (s : St) (ho : out s.k = true) :
    retryGo out name exc (n + 1) s = .ok ⟨s.k + 1, s.trace ++ [⟨name, true⟩]⟩ := by
  simp [retryGo, doStep, ho]

theorem retryGo_succ_fail (out : Nat → Bool) (name : String) (exc : Option String)
    (n : Nat) (s : St) (ho : out s.k = false) :
    retryGo out name exc (n + 1) s
      = retryGo out name (some name) n ⟨s.k + 1, s.trace ++ [⟨name, false⟩]⟩ := by
  simp [retryGo, doStep, ho]

theorem retryGo_ok_char (out : Nat → Bool) (name : String) :
    ∀ (fuel : Nat) (exc : Option String) (s s' : St),
    retryGo out name exc fuel s = .ok s' →
    ∃ t, s'.trace = s.trace ++ t ∧ (∀ e ∈ t, e.name = name) := by
  intro fuel
  induction fuel with
  | zero => intro exc s s' h; cases exc <;> simp [retryGo] at h
  | succ n ih =>
    intro exc s s' h
    rcases ho : out s.k with hv | hv
    · rw [retryGo_succ_fail out name exc n s ho] at h
      obtain ⟨t, ht, hn⟩ := ih _ _ _ h
      refine ⟨⟨name, false⟩ :: t, by simpa using ht, ?_⟩
      intro e he
      rcases List.mem_cons.mp he with rfl | he
      · rfl
      · exact hn e he
    · rw [retryGo_succ_ok out name exc n s ho] at h
      simp only [RetryResult.ok.injEq] at h
      exact ⟨[⟨name, true⟩], by simp [← h], by simp⟩

theorem retryGo_fail_char (out : Nat → Bool) (name : String) :
    ∀ (fuel : Nat) (exc : Option String) (s : St) (c : String) (s' : St),
    (exc = none ∨ exc = some name) →
    retryGo out name exc fuel s = .stepFailure c s' →
    c = name ∧ ∃ t, s'.trace = s.trace ++ t ∧ (∀ e ∈ t, e.name = name) := by
  intro fuel
  induction fuel with
  | zero =>
    intro exc s c s' hexc h
    rcases hexc with rfl | rfl
    · simp [retryGo] at h
    · simp only [retryGo, RetryResult.stepFailure.injEq] at h
      obtain ⟨rfl, rfl⟩ := h
      exact ⟨rfl, ⟨[], by simp, by simp⟩⟩
  | succ n ih =>
    intro exc s c s' hexc h
    rcases ho : out s.k with hv | hv
    · rw [retryGo_succ_fail out name exc n s ho] at h
      obtain ⟨hc, t, ht, hn⟩ := ih _ _ _ _ (Or.inr rfl) h
      refine ⟨hc, ⟨name, false⟩ :: t, by simpa using ht, ?_⟩
      intro e he
      rcases List.mem_cons.mp he with rfl | he
      · rfl
      · exact hn e he
    · rw [retryGo_succ_ok out name exc n s ho] at h
      cases h

theorem retryGo_ne_raiseNone (out : Nat → Bool) (name : String) :
    ∀ (fuel : Nat) (exc : Option String) (s s' : St), exc ≠ none →
    retryGo out name exc fuel s ≠ .raiseNone s' := by
  intro fuel
  induction fuel with
  | zero =>
    intro exc s s' hexc h
    cases exc
    · exact hexc rfl
    · simp [retryGo] at h
  | succ n ih =>
    intro exc s s' hexc h
    rcases ho : out s.k with hv | hv
    · rw [retryGo_succ_fail out name exc n s ho] at h
      exact ih _ _ _ (by simp) h
    · rw [retryGo_succ_ok out name exc n s ho] at h
      cases h


/-- Exhaustive characterization of the build/test branch (src lines 117–136):
the entries it appends to the trace, the number of emulator-stop invocations,
the halting discipline, and which failure the branch propagates when the
`finally`'s stop step itself fails. -/
theorem runBranch_char (builder : String) (out : Nat → Bool) (env : EnvMap) (s : St) :
    ∃ t, (runBranch builder out env s).trace = s.trace ++ t ∧
      startedOk t = false ∧
      ((strContains builder "Build" = true ∧
         (∀ e ∈ t, e.name ≠ ruName) ∧
         (∀ e ∈ t, e.name ≠ stopName) ∧
         stopCount t = 0 ∧ afterFailOnlyStop t = true)
       ∨ (strContains builder "Build" = false ∧
           (strContains builder "Large" || strContains builder "Race") = false ∧
           (∀ e ∈ t, e.name ≠ stopName) ∧
           stopCount t = 0 ∧ afterFailOnlyStop t = true ∧
           ((⟨ruName, false⟩ : StepExec) ∈ t →
             (runBranch builder out env s).outcome = .stepFailure ruName))
       ∨ (strContains builder "Build" = false ∧
           (strContains builder "Large" || strContains builder "Race") = true ∧
           stopCount t = 1 ∧ afterFailOnlyStop t = true ∧
           ((⟨stopName, false⟩ : StepExec) ∈ t →
             (runBranch builder out env s).outcome = .stepFailure stopName))) := by
  rcases hB : strContains builder "Build"
  · -- non-Build: run_unittests inside try, stop in finally when Large/Race
    rcases hLR : (strContains builder "Large" || strContains builder "Race")
    · rcases stepE_cases out ruName s with ⟨_, heq1⟩ | ⟨_, heq1⟩
      · rcases stepE_cases out "git diff go.mod"
            ⟨s.k + 1, s.trace ++ [⟨ruName, true⟩]⟩ with ⟨_, heq2⟩ | ⟨_, heq2⟩
        · simp only [runBranch, hB, hLR, heq1, heq2, finishRun, finishRun.finishOk,
            Bool.false_eq_true, if_false]
          refine ⟨[⟨ruName, true⟩, ⟨"git diff go.mod", true⟩], by simp, by decide, ?_⟩
          exact Or.inr (Or.inl ⟨trivial, trivial, by simp [ruName, stopName],
            by decide, by decide, fun hm => absurd hm (by simp [ruName])⟩)
        · simp only [runBranch, hB, hLR, heq1, heq2, finishRun, finishRun.finishOk,
            Bool.false_eq_true, if_false]
          refine ⟨[⟨ruName, true⟩, ⟨"git diff go.mod", false⟩], by simp, by decide, ?_⟩
          exact Or.inr (Or.inl ⟨trivial, trivial, by simp [ruName, stopName],
            by decide, by decide, fun hm => absurd hm (by simp [ruName])⟩)
      · simp only [runBranch, hB, hLR, heq1, Bool.false_eq_true, if_false]
        refine ⟨[⟨ruName, false⟩], by simp, by decide, ?_⟩
        exact Or.inr (Or.inl ⟨trivial, trivial, by simp [ruName, stopName],
          by decide, by decide, fun _ => trivial⟩)
    · rcases stepE_cases out ruName s with ⟨_, heq1⟩ | ⟨_, heq1⟩
      · rcases stepE_cases out stopName
            ⟨s.k + 1, s.trace ++ [⟨ruName, true⟩]⟩ with ⟨_, heq2⟩ | ⟨_, heq2⟩
        · rcases stepE_cases out "git diff go.mod"
              ⟨s.k + 1 + 1, s.trace ++ [⟨ruName, true⟩] ++ [⟨stopName, true⟩]⟩ with
            ⟨_, heq3⟩ | ⟨_, heq3⟩
          · simp only [runBranch, hB, hLR, heq1, heq2, heq3, finishRun,
              finishRun.finishOk, Bool.false_eq_true, if_false, if_true]
            refine ⟨[⟨ruName, true⟩, ⟨stopName, true⟩, ⟨"git diff go.mod", true⟩],
              by simp, by decide, ?_⟩
            exact Or.inr (Or.inr ⟨trivial, trivial, by decide, by decide,
              fun hm => absurd hm (by simp [ruName, stopName])⟩)
          · simp only [runBranch, hB, hLR, heq1, heq2, heq3, finishRun,
              finishRun.finishOk, Bool.false_eq_true, if_false, if_true]
            refine ⟨[⟨ruName, true⟩, ⟨stopName, true⟩, ⟨"git diff go.mod", false⟩],
              by simp, by decide, ?_⟩
            exact Or.inr (Or.inr ⟨trivial, trivial, by decide, by decide,
              fun hm => absurd hm (by simp [ruName, stopName])⟩)
        · simp only [runBranch, hB, hLR, heq1, heq2, Bool.false_eq_true, if_false,
            if_true]
          refine ⟨[⟨ruName, true⟩, ⟨stopName, false⟩], by simp, by decide, ?_⟩
          exact Or.inr (Or.inr ⟨trivial, trivial, by decide, by decide, fun _ => trivial⟩)
      · rcases stepE_cases out stopName
            ⟨s.k + 1, s.trace ++ [⟨ruName, false⟩]⟩ with ⟨_, heq2⟩ | ⟨_, heq2⟩
        · simp only [runBranch, hB, hLR, heq1, heq2, Bool.false_eq_true, if_false,
            if_true]
          refine ⟨[⟨ruName, false⟩, ⟨stopName, true⟩], by simp, by decide, ?_⟩
          exact Or.inr (Or.inr ⟨trivial, trivial, by decide, by decide,
            fun hm => absurd hm (by simp [ruName, stopName])⟩)
        · simp only [runBranch, hB, hLR, heq1, heq2, Bool.false_eq_true, if_false,
            if_true]
          refine ⟨[⟨ruName, false⟩, ⟨stopName, false⟩], by simp, by decide, ?_⟩
          exact Or.inr (Or.inr ⟨trivial, trivial, by decide, by decide, fun _ => trivial⟩)
  · -- Build branch: make all, no try/finally
    rcases stepE_cases out "make all" s with ⟨_, heq1⟩ | ⟨_, heq1⟩
    · rcases stepE_cases out "git diff go.mod"
          ⟨s.k + 1, s.trace ++ [⟨"make all", true⟩]⟩ with ⟨_, heq2⟩ | ⟨_, heq2⟩
      · simp only [runBranch, hB, heq1, heq2, finishRun, finishRun.finishOk, if_true]
        refine ⟨[⟨"make all", true⟩, ⟨"git diff go.mod", true⟩], by simp, by decide, ?_⟩
        exact Or.inl ⟨trivial, by simp [ruName], by simp [stopName], by decide, by decide⟩
      · simp only [runBranch, hB, heq1, heq2, finishRun, finishRun.finishOk, if_true]
        refine ⟨[⟨"make all", true⟩, ⟨"git diff go.mod", false⟩], by simp, by decide, ?_⟩
        exact Or.inl ⟨trivial, by simp [ruName], by simp [stopName], by decide, by decide⟩
    · simp only [runBranch, hB, heq1, if_true]
      refine ⟨[⟨"make all", false⟩], by simp, by decide, ?_⟩
      exact Or.inl ⟨trivial, by simp [ruName], by simp [stopName], by decide, by decide⟩

/-! ## Assembling the full-run characterization -/

theorem forall_name_ne_of_mem (nm : String) {t : List StepExec} {names : List String}
    (hmem : ∀ e ∈ t, e.name ∈ names)
    (hall : names.all (fun x => !(x == nm)) = true) :
    ∀ e ∈ t, e.name ≠ nm := by
  intro e he heq
  have h2 := List.all_eq_true.mp hall _ (hmem e he)
  rw [heq] at h2
  simp at h2

theorem ne_of_mem_all (nm : String) {c : String} {names : List String} (hc : c ∈ names)
    (hall : names.all (fun x => !(x == nm)) = true) : c ≠ nm := by
  intro heq
  have h2 := List.all_eq_true.mp hall _ hc
  rw [heq] at h2
  simp at h2

theorem afterFail_of_all {tr : List StepExec}
    (h : ∀ e ∈ tr, e.ok = true ∨ e.name = dlName) :
    afterFailOnlyStop tr = true := by
  have h2 := afterFail_append ([] : List StepExec) h
  simpa using h2

/-- Facts about an aborted run's trace: all entries before the failing one
succeeded (or were retried download attempts), and the failing entry is not
the emulator start/stop or the unit-test step being characterized. -/
theorem abortFacts {tr t : List StepExec} {c : String}
    (ht : tr = t ++ [⟨c, false⟩])
    (hok : ∀ e ∈ t, e.ok = true ∨ e.name = dlName)
    (hneS : ∀ e ∈ t, e.name ≠ startName)
    (hneP : ∀ e ∈ t, e.name ≠ stopName)
    (hneR : ∀ e ∈ t, e.name ≠ ruName)
    (hcP : c ≠ stopName) (hcR : c ≠ ruName) :
    startedOk tr = false ∧ stopCount tr = 0 ∧ afterFailOnlyStop tr = true ∧
      (∀ e ∈ tr, e.name ≠ ruName) := by
  subst ht
  refine ⟨?_, ?_, ?_, ?_⟩
  · rw [startedOk_append, startedOk_false hneS]
    simp [startedOk]
  · rw [stopCount_append, stopCount_zero hneP]
    simp [stopCount, hcP]
  · rw [afterFail_append _ hok]
    exact afterFail_singleton _
  · intro e he
    rcases List.mem_append.mp he with h | h
    · exact hneR e h
    · rw [List.mem_singleton.mp h]
      exact hcR

/-- Same facts when the trace ends in failed retried-download attempts
instead of a single failing entry. -/
theorem abortFactsAll {tr : List StepExec}
    (hok : ∀ e ∈ tr, e.ok = true ∨ e.name = dlName)
    (hneS : ∀ e ∈ tr, e.name ≠ startName)
    (hneP : ∀ e ∈ tr, e.name ≠ stopName)
    (hneR : ∀ e ∈ tr, e.name ≠ ruName) :
    startedOk tr = false ∧ stopCount tr = 0 ∧ afterFailOnlyStop tr = true ∧
      (∀ e ∈ tr, e.name ≠ ruName) :=
  ⟨startedOk_false hneS, stopCount_zero hneP, afterFail_of_all hok, hneR⟩

theorem retry_pos_ne_raiseNone (out : Nat → Bool) (name : String) (n : Nat)
    (s s' : St) : retry out (n + 1) name s ≠ .raiseNone s' := by
  intro h
  rcases ho : out s.k
  · rw [retry, retryGo_succ_fail out name none n s ho] at h
    exact retryGo_ne_raiseNone out name n _ _ _ (by simp) h
  · rw [retry, retryGo_succ_ok out name none n s ho] at h
    cases h

theorem forall_mem_append₂ {P : StepExec → Prop} {a b : List StepExec}
    (ha : ∀ e ∈ a, P e) (hb : ∀ e ∈ b, P e) : ∀ e ∈ a ++ b, P e := by
  intro e he
  rcases List.mem_append.mp he with h | h
  · exact ha e h
  · exact hb e h

theorem forall_mem_singleton {P : StepExec → Prop} {x : StepExec} (hx : P x) :
    ∀ e ∈ [x], P e := by
  intro e he
  rw [List.mem_singleton.mp he]
  exact hx

/-- Master characterization of a full run: either the run aborted before the
build/test branch (so the emulator start never succeeded, no stop ran, and no
`run_unittests` invocation was recorded), or the run reached the branch with
a clean prefix and the branch behaves as in `runBranch_char`. -/
theorem RunSteps_shape (builder sd : String) (out : Nat → Bool) :
    ((∃ c, (RunSteps builder sd out).outcome = .stepFailure c) ∧
      startedOk (RunSteps builder sd out).trace = false ∧
      stopCount (RunSteps builder sd out).trace = 0 ∧
      afterFailOnlyStop (RunSteps builder sd out).trace = true ∧
      (∀ e ∈ (RunSteps builder sd out).trace, e.name ≠ ruName))
    ∨
    (∃ p t, (RunSteps builder sd out).trace = p ++ t ∧
      (∀ e ∈ p, e.ok = true ∨ e.name = dlName) ∧
      startedOk p = (strContains builder "Large" || strContains builder "Race") ∧
      stopCount p = 0 ∧
      (∀ e ∈ p, e.name ≠ ruName) ∧
      (∀ e ∈ p, e.name ≠ stopName) ∧
      startedOk t = false ∧
      ((strContains builder "Build" = true ∧
         (∀ e ∈ t, e.name ≠ ruName) ∧
         (∀ e ∈ t, e.name ≠ stopName) ∧
         stopCount t = 0 ∧ afterFailOnlyStop t = true)
       ∨ (strContains builder "Build" = false ∧
           (strContains builder "Large" || strContains builder "Race") = false ∧
           (∀ e ∈ t, e.name ≠ stopName) ∧
           stopCount t = 0 ∧ afterFailOnlyStop t = true ∧
           ((⟨ruName, false⟩ : StepExec) ∈ t →
             (RunSteps builder sd out).outcome = .stepFailure ruName))
       ∨ (strContains builder "Build" = false ∧
           (strContains builder "Large" || strContains builder "Race") = true ∧
           stopCount t = 1 ∧ afterFailOnlyStop t = true ∧
           ((⟨stopName, false⟩ : StepExec) ∈ t →
             (RunSteps builder sd out).outcome = .stepFailure stopName)))) := by
  rcases h1 : runSeq out ["git init", "git add", "git commit"] ⟨0, []⟩ with ⟨c1, sE⟩ | s1
  · -- abort during the git-init sequence
    obtain ⟨t, ht, hok, hmem, hc⟩ := runSeq_error_char out _ _ _ _ h1
    left
    simp only [RunSteps, h1]
    have ht' : sE.trace = t ++ [⟨c1, false⟩] := by simpa using ht
    obtain ⟨hA, hB2, hC2, hD2⟩ := abortFacts ht' (fun e he => Or.inl (hok e he))
      (forall_name_ne_of_mem startName hmem (by rfl))
      (forall_name_ne_of_mem stopName hmem (by rfl))
      (forall_name_ne_of_mem ruName hmem (by rfl))
      (ne_of_mem_all stopName hc (by rfl)) (ne_of_mem_all ruName hc (by rfl))
    exact ⟨⟨c1, rfl⟩, hA, hB2, hC2, hD2⟩
  · -- git sequence succeeded
    obtain ⟨t0, ht0, hok0, hmem0⟩ := runSeq_ok_char out _ _ _ h1
    have ht0' : s1.trace = t0 := by simpa using ht0
    have hneS0 := forall_name_ne_of_mem startName hmem0 (by rfl)
    have hneP0 := forall_name_ne_of_mem stopName hmem0 (by rfl)
    have hneR0 := forall_name_ne_of_mem ruName hmem0 (by rfl)
    rcases stepE_cases out "which go" s1 with ⟨ho2, heq2⟩ | ⟨ho2, heq2⟩
    · -- which go succeeded
      rcases hr : retry out 3 dlName ⟨s1.k + 1, s1.trace ++ [⟨"which go", true⟩]⟩ with
        s3 | ⟨c3, s3⟩ | s3
      · -- go mod download eventually succeeded
        obtain ⟨tdl, hdl, hndl⟩ := retryGo_ok_char out dlName 3 none _ s3 hr
        have hdl' : s3.trace = s1.trace ++ [⟨"which go", true⟩] ++ tdl := by
          simpa using hdl
        have hok3 : ∀ e ∈ s3.trace, e.ok = true ∨ e.name = dlName := by
          rw [hdl', ht0']
          refine forall_mem_append₂ (forall_mem_append₂ ?_ ?_) ?_
          · exact fun e he => Or.inl (hok0 e (ht0' ▸ he))
          · exact forall_mem_singleton (Or.inl rfl)
          · exact fun e he => Or.inr (hndl e he)
        have hneS3 : ∀ e ∈ s3.trace, e.name ≠ startName := by
          rw [hdl', ht0']
          refine forall_mem_append₂ (forall_mem_append₂ ?_ ?_) ?_
          · exact fun e he => hneS0 e (ht0' ▸ he)
          · exact forall_mem_singleton (by decide)
          · exact fun e he => by rw [hndl e he]; decide
        have hneP3 : ∀ e ∈ s3.trace, e.name ≠ stopName := by
          rw [hdl', ht0']
          refine forall_mem_append₂ (forall_mem_append₂ ?_ ?_) ?_
          · exact fun e he => hneP0 e (ht0' ▸ he)
          · exact forall_mem_singleton (by decide)
          · exact fun e he => by rw [hndl e he]; decide
        have hneR3 : ∀ e ∈ s3.trace, e.name ≠ ruName := by
          rw [hdl', ht0']
          refine forall_mem_append₂ (forall_mem_append₂ ?_ ?_) ?_
          · exact fun e he => hneR0 e (ht0' ▸ he)
          · exact forall_mem_singleton (by decide)
          · exact fun e he => by rw [hndl e he]; decide
        rcases h4 : runSeq out installSteps s3 with ⟨c4, s4E⟩ | s4
        · -- abort during go install sequence
          obtain ⟨tins, htins, hokins, hmemins, hcins⟩ := runSeq_error_char out _ _ _ _ h4
          left
          simp only [RunSteps, h1, heq2, hr, h4]
          obtain ⟨hA, hB2, hC2, hD2⟩ := abortFacts htins
            (forall_mem_append₂ hok3 (fun e he => Or.inl (hokins e he)))
            (forall_mem_append₂ hneS3 (forall_name_ne_of_mem startName hmemins (by rfl)))
            (forall_mem_append₂ hneP3 (forall_name_ne_of_mem stopName hmemins (by rfl)))
            (forall_mem_append₂ hneR3 (forall_name_ne_of_mem ruName hmemins (by rfl)))
            (ne_of_mem_all stopName hcins (by rfl)) (ne_of_mem_all ruName hcins (by rfl))
          exact ⟨⟨c4, rfl⟩, hA, hB2, hC2, hD2⟩
        · -- go install sequence succeeded
          obtain ⟨tins, htins, hokins, hmemins⟩ := runSeq_ok_char out _ _ _ h4
          have hok4 : ∀ e ∈ s4.trace, e.ok = true ∨ e.name = dlName := by
            rw [htins]
            exact forall_mem_append₂ hok3 (fun e he => Or.inl (hokins e he))
          have hneS4 : ∀ e ∈ s4.trace, e.name ≠ startName := by
            rw [htins]
            exact forall_mem_append₂ hneS3
              (forall_name_ne_of_mem startName hmemins (by rfl))
          have hneP4 : ∀ e ∈ s4.trace, e.name ≠ stopName := by
            rw [htins]
            exact forall_mem_append₂ hneP3
              (forall_name_ne_of_mem stopName hmemins (by rfl))
          have hneR4 : ∀ e ∈ s4.trace, e.name ≠ ruName := by
            rw [htins]
            exact forall_mem_append₂ hneR3
              (forall_name_ne_of_mem ruName hmemins (by rfl))
          rcases hLR : (strContains builder "Large" || strContains builder "Race")
          · -- no emulator start
            obtain ⟨t, htb, hst, hcases⟩ :=
              runBranch_char builder out (envFinal builder sd) s4
            right
            simp only [RunSteps, h1, heq2, hr, h4, hLR, Bool.false_eq_true, if_false]
            refine ⟨s4.trace, t, htb, hok4, ?_, stopCount_zero hneP4, hneR4, hneP4,
              hst, ?_⟩
            · rw [startedOk_false hneS4]
            · simpa only [hLR, Bool.false_eq_true] using hcases
          · -- emulator start step runs
            rcases stepE_cases out startName s4 with ⟨ho5, heq5⟩ | ⟨ho5, heq5⟩
            · -- start succeeded: branch is reached
              obtain ⟨t, htb, hst, hcases⟩ := runBranch_char builder out
                (envFinal builder sd) ⟨s4.k + 1, s4.trace ++ [⟨startName, true⟩]⟩
              right
              simp only [RunSteps, h1, heq2, hr, h4, hLR, heq5, if_true]
              refine ⟨s4.trace ++ [⟨startName, true⟩], t, htb, ?_, ?_, ?_, ?_, ?_,
                hst, by simpa only [hLR] using hcases⟩
              · exact forall_mem_append₂ hok4 (forall_mem_singleton (Or.inl rfl))
              · rw [startedOk_append, startedOk_false hneS4]
                simp [startedOk]
              · rw [stopCount_append, stopCount_zero hneP4]
                simp [stopCount, startName, stopName]
              · exact forall_mem_append₂ hneR4 (forall_mem_singleton (by decide))
              · exact forall_mem_append₂ hneP4 (forall_mem_singleton (by decide))
            · -- start failed: abort
              left
              simp only [RunSteps, h1, heq2, hr, h4, hLR, heq5, if_true]
              obtain ⟨hA, hB2, hC2, hD2⟩ := abortFacts
                (show s4.trace ++ [(⟨startName, false⟩ : StepExec)]
                  = s4.trace ++ [⟨startName, false⟩] from rfl)
                hok4 hneS4 hneP4 hneR4 (by decide) (by decide)
              exact ⟨⟨startName, rfl⟩, hA, hB2, hC2, hD2⟩
      · -- all three download attempts failed
        obtain ⟨hc3, tdl, hdl, hndl⟩ :=
          retryGo_fail_char out dlName 3 none _ c3 s3 (Or.inl rfl) hr
        subst hc3
        left
        simp only [RunSteps, h1, heq2, hr]
        have hdl' : s3.trace = s1.trace ++ [⟨"which go", true⟩] ++ tdl := by
          simpa using hdl
        refine ⟨⟨dlName, rfl⟩, ?_⟩
        rw [hdl', ht0']
        have hokAll : ∀ e ∈ t0 ++ [(⟨"which go", true⟩ : StepExec)] ++ tdl,
            e.ok = true ∨ e.name = dlName :=
          forall_mem_append₂ (forall_mem_append₂
            (fun e he => Or.inl (hok0 e he)) (forall_mem_singleton (Or.inl rfl)))
            (fun e he => Or.inr (hndl e he))
        have hneS : ∀ e ∈ t0 ++ [(⟨"which go", true⟩ : StepExec)] ++ tdl,
            e.name ≠ startName :=
          forall_mem_append₂ (forall_mem_append₂ hneS0
            (forall_mem_singleton (by decide))) (fun e he => by rw [hndl e he]; decide)
        have hneP : ∀ e ∈ t0 ++ [(⟨"which go", true⟩ : StepExec)] ++ tdl,
            e.name ≠ stopName :=
          forall_mem_append₂ (forall_mem_append₂ hneP0
            (forall_mem_singleton (by decide))) (fun e he => by rw [hndl e he]; decide)
        have hneR : ∀ e ∈ t0 ++ [(⟨"which go", true⟩ : StepExec)] ++ tdl,
            e.name ≠ ruName :=
          forall_mem_append₂ (forall_mem_append₂ hneR0
            (forall_mem_singleton (by decide))) (fun e he => by rw [hndl e he]; decide)
        exact abortFactsAll hokAll hneS hneP hneR
      · -- retry cannot raise None when attempts = 3
        exact absurd hr (retry_pos_ne_raiseNone out dlName 2 _ s3)
    · -- which go failed
      left
      simp only [RunSteps, h1, heq2]
      have ht' : s1.trace ++ [(⟨"which go", false⟩ : StepExec)]
          = t0 ++ [⟨"which go", false⟩] := by rw [ht0']
      obtain ⟨hA, hB2, hC2, hD2⟩ := abortFacts ht'
        (fun e he => Or.inl (hok0 e (ht0' ▸ he))) (fun e he => hneS0 e (ht0' ▸ he))
        (fun e he => hneP0 e (ht0' ▸ he)) (fun e he => hneR0 e (ht0' ▸ he))
        (by decide) (by decide)
      exact ⟨⟨"which go", rfl⟩, hA, hB2, hC2, hD2⟩

/-- C2 counterexample: for builder "Infra-PerCommit-Build-Large" (whose name
contains both "Build" and "Large") with the first `go mod download` attempt
failing and everything else succeeding, the emulator-start step ran
successfully but the emulator-stop cleanup step never ran (zero invocations,
not one), and a failing non-cleanup step (the first download attempt) was
followed by further non-cleanup steps. -/
theorem cleanup_skipped_on_build_large :
    startedOk (RunSteps "Infra-PerCommit-Build-Large" "sd"
      (fun i => !(i == 4))).trace = true ∧
    stopCount (RunSteps "Infra-PerCommit-Build-Large" "sd"
      (fun i => !(i == 4))).trace = 0 ∧
    haltsAfterFirstFail (RunSteps "Infra-PerCommit-Build-Large" "sd"
      (fun i => !(i == 4))).trace = false :=
  ⟨rfl, rfl, rfl⟩

/-- C2 (amended): for every builder whose name does not contain "Build" (so
the non-Build test branch is selected) and every assignment of step
outcomes, whenever the emulator-start step ran successfully the emulator-stop
cleanup step runs exactly once, and after the first failing step that is
neither a retried `go mod download` attempt nor the cleanup step itself, only
cleanup (emulator-stop) invocations follow. -/
theorem cleanup_guarantee_non_build (builder sd : String) (out : Nat → Bool)
    (hB : strContains builder "Build" = false) :
    (startedOk (RunSteps builder sd out).trace = true →
      stopCount (RunSteps builder sd out).trace = 1) ∧
    afterFailOnlyStop (RunSteps builder sd out).trace = true := by
  rcases RunSteps_shape builder sd out with
    ⟨_, hs, _, ha, _⟩ | ⟨p, t, htr, hokp, hsp, hcp, _, hnePp, hst, hcases⟩
  · refine ⟨fun h => ?_, ha⟩
    rw [hs] at h
    cases h
  · constructor
    · intro h
      rw [htr, startedOk_append, hsp, hst, Bool.or_false] at h
      rcases hcases with ⟨hb1, _⟩ | ⟨_, hlr1, _⟩ | ⟨_, _, hc1, _, _⟩
      · rw [hb1] at hB; cases hB
      · rw [h] at hlr1; cases hlr1
      · rw [htr, stopCount_append, hcp, hc1]
    · rw [htr, afterFail_append t hokp]
      rcases hcases with ⟨_, _, _, _, ha1⟩ | ⟨_, _, _, _, ha1, _⟩ | ⟨_, _, _, ha1, _⟩
      all_goals exact ha1

/-- Witness for the amended C2 at a concrete builder and oracle: the start
step did run, so the conclusion fires and the stop step ran exactly once. -/
theorem cleanup_guarantee_non_build_witness :
    stopCount (RunSteps "Infra-PerCommit-Large" "sd" (fun _ => true)).trace = 1 ∧
    afterFailOnlyStop (RunSteps "Infra-PerCommit-Large" "sd" (fun _ => true)).trace
      = true :=
  ⟨(cleanup_guarantee_non_build "Infra-PerCommit-Large" "sd" (fun _ => true) rfl).1
      rfl,
   (cleanup_guarantee_non_build "Infra-PerCommit-Large" "sd" (fun _ => true) rfl).2⟩

/-- C6 counterexample: builder "Infra-PerCommit-Large" with `run_unittests`
(invocation 13) and the emulator-stop cleanup step (invocation 14) both
failing: the main-sequence failure is recorded in the step results, yet the
propagated failure cause of the run is the cleanup step, not the original
`run_unittests` failure. -/
theorem cleanup_failure_masks_primary :
    (⟨ruName, false⟩ : StepExec) ∈ (RunSteps "Infra-PerCommit-Large" "sd"
      (fun i => !(i == 13 || i == 14))).trace ∧
    (RunSteps "Infra-PerCommit-Large" "sd"
      (fun i => !(i == 13 || i == 14))).outcome = .stepFailure stopName ∧
    ¬ (RunSteps "Infra-PerCommit-Large" "sd"
      (fun i => !(i == 13 || i == 14))).outcome = .stepFailure ruName := by
  refine ⟨by decide, rfl, by decide⟩

/-- C6 (amended): in every run in which a `run_unittests` failure and an
emulator-stop cleanup failure are both recorded, the propagated failure cause
of the run is the cleanup step's failure — the `finally`-raised exception
replaces the original one (last failure wins for reporting), while both
failures remain recorded in the step results. -/
theorem cleanup_failure_wins_reporting (builder sd : String) (out : Nat → Bool)
    (h1 : (⟨ruName, false⟩ : StepExec) ∈ (RunSteps builder sd out).trace)
    (h2 : (⟨stopName, false⟩ : StepExec) ∈ (RunSteps builder sd out).trace) :
    (RunSteps builder sd out).outcome = .stepFailure stopName := by
  rcases RunSteps_shape builder sd out with
    ⟨_, _, _, _, hru⟩ | ⟨p, t, htr, _, _, _, hneRp, hnePp, _, hcases⟩
  · exact absurd rfl (hru _ h1)
  · rw [htr] at h1 h2
    have h1t : (⟨ruName, false⟩ : StepExec) ∈ t := by
      rcases List.mem_append.mp h1 with h | h
      · exact absurd rfl (hneRp _ h)
      · exact h
    have h2t : (⟨stopName, false⟩ : StepExec) ∈ t := by
      rcases List.mem_append.mp h2 with h | h
      · exact absurd rfl (hnePp _ h)
      · exact h
    rcases hcases with ⟨_, hruT, _⟩ | ⟨_, _, hstopT, _⟩ | ⟨_, _, _, _, himp⟩
    · exact absurd rfl (hruT _ h1t)
    · exact absurd rfl (hstopT _ h2t)
    · exact himp h2t

/-- Witness for the amended C6 at a concrete run. -/
theorem cleanup_failure_wins_reporting_witness :
    (RunSteps "Infra-PerCommit-Large" "sd"
      (fun i => !(i == 13 || i == 14))).outcome = .stepFailure stopName :=
  cleanup_failure_wins_reporting "Infra-PerCommit-Large" "sd"
    (fun i => !(i == 13 || i == 14)) (by decide) (by decide)

/-! ## Branch selection (C3) and retry semantics (C4, C9) -/

/-- C3: for every builder name exactly one of the five branches is selected;
"Build" containment takes precedence over everything, "Race" over
"Large"/"Medium"/"Small", and a name matching none of the first four
substrings selects the Small branch, so selection is total. -/
theorem branch_selection_total_precedence (builder : String) :
    (∃! b, selectBranch builder = b) ∧
    (strContains builder "Build" = true → selectBranch builder = .build) ∧
    (strContains builder "Build" = false → strContains builder "Race" = true →
      selectBranch builder = .race) ∧
    (strContains builder "Build" = false → strContains builder "Race" = false →
      strContains builder "Large" = false → strContains builder "Medium" = false →
      selectBranch builder = .small) := by
  refine ⟨⟨selectBranch builder, rfl, fun y hy => hy.symm⟩, ?_, ?_, ?_⟩
  · intro h
    simp [selectBranch, h]
  · intro h1 h2
    simp [selectBranch, h1, h2]
  · intro h1 h2 h3 h4
    simp [selectBranch, h1, h2, h3, h4]

/-- Witness for C3 at concrete builder names exercising each precedence. -/
theorem branch_selection_total_precedence_witness :
    selectBranch "Infra-PerCommit-Build-Race" = Branch.build ∧
    selectBranch "Infra-PerCommit-Race-Large" = Branch.race ∧
    selectBranch "Infra-PerCommit" = Branch.small :=
  ⟨(branch_selection_total_precedence "Infra-PerCommit-Build-Race").2.1 rfl,
   (branch_selection_total_precedence "Infra-PerCommit-Race-Large").2.2.1 rfl rfl,
   (branch_selection_total_precedence "Infra-PerCommit").2.2.2 rfl rfl rfl rfl⟩

/-- The state carried by any `retry` result. -/
def RetryResult.stateOf : RetryResult → St
  | .ok s => s
  | .stepFailure _ s => s
  | .raiseNone s => s

/-- Did `retry` return normally (some attempt succeeded)? -/
def RetryResult.succeeded : RetryResult → Bool
  | .ok _ => true
  | _ => false

/-- The re-raised `StepFailure`'s step name, when `retry` exhausted its
attempts. -/
def RetryResult.causeOf : RetryResult → Option String
  | .stepFailure c _ => some c
  | _ => none

theorem retryGo_succeeds (out : Nat → Bool) (name : String) :
    ∀ (k fuel : Nat) (exc : Option String) (s : St), 1 ≤ k → k ≤ fuel →
    (∀ j, j + 1 < k → out (s.k + j) = false) → out (s.k + (k - 1)) = true →
    ∃ tr, retryGo out name exc fuel s = .ok ⟨s.k + k, tr⟩ ∧
      tr.length = s.trace.length + k := by
  intro k
  induction k with
  | zero =>
    intro fuel exc s h1 _ _ _
    exact absurd h1 (by omega)
  | succ n ih =>
    intro fuel exc s _ h2 hf hs
    obtain ⟨m, rfl⟩ : ∃ m, fuel = m + 1 := ⟨fuel - 1, by omega⟩
    by_cases hn : n = 0
    · subst hn
      have h0 : out s.k = true := by simpa using hs
      refine ⟨s.trace ++ [⟨name, true⟩], ?_, by simp⟩
      rw [retryGo_succ_ok out name exc m s h0]
    · have h0 : out s.k = false := hf 0 (by omega)
      rw [retryGo_succ_fail out name exc m s h0]
      have hf' : ∀ j, j + 1 < n →
          out ((⟨s.k + 1, s.trace ++ [⟨name, false⟩]⟩ : St).k + j) = false := by
        intro j hj
        show out (s.k + 1 + j) = false
        have harg : s.k + 1 + j = s.k + (j + 1) := by omega
        rw [harg]
        exact hf (j + 1) (by omega)
      have hs' : out ((⟨s.k + 1, s.trace ++ [⟨name, false⟩]⟩ : St).k + (n - 1)) = true := by
        show out (s.k + 1 + (n - 1)) = true
        have harg : s.k + 1 + (n - 1) = s.k + (n + 1 - 1) := by omega
        rw [harg]
        exact hs
      obtain ⟨tr, heq, hlen⟩ := ih m (some name) ⟨s.k + 1, s.trace ++ [⟨name, false⟩]⟩
        (by omega) (by omega) hf' hs'
      refine ⟨tr, ?_, by simp at hlen; omega⟩
      rw [heq]
      simp only [RetryResult.ok.injEq, St.mk.injEq]
      exact ⟨by omega, trivial⟩

theorem retryGo_all_fail (out : Nat → Bool) (name : String) :
    ∀ (fuel : Nat) (exc : Option String) (s : St), 1 ≤ fuel →
    (∀ j, j < fuel → out (s.k + j) = false) →
    ∃ tr, retryGo out name exc fuel s = .stepFailure name ⟨s.k + fuel, tr⟩ ∧
      tr.length = s.trace.length + fuel := by
  intro fuel
  induction fuel with
  | zero =>
    intro exc s h1 _
    exact absurd h1 (by omega)
  | succ n ih =>
    intro exc s _ hf
    have h0 : out s.k = false := hf 0 (by omega)
    rw [retryGo_succ_fail out name exc n s h0]
    by_cases hn : n = 0
    · subst hn
      refine ⟨s.trace ++ [⟨name, false⟩], ?_, by simp⟩
      simp [retryGo]
    · have hf' : ∀ j, j < n →
          out ((⟨s.k + 1, s.trace ++ [⟨name, false⟩]⟩ : St).k + j) = false := by
        intro j hj
        show out (s.k + 1 + j) = false
        have harg : s.k + 1 + j = s.k + (j + 1) := by omega
        rw [harg]
        exact hf (j + 1) (by omega)
      obtain ⟨tr, heq, hlen⟩ := ih (some name) ⟨s.k + 1, s.trace ++ [⟨name, false⟩]⟩
        (by omega) hf'
      refine ⟨tr, ?_, by simp at hlen; omega⟩
      rw [heq]
      simp only [RetryResult.stepFailure.injEq, St.mk.injEq]
      exact ⟨trivial, by omega, trivial⟩

/-- C4: for maxAttempts = m ≥ 1, a step failing on attempts 1..k-1 and
succeeding on attempt k ≤ m makes `retry` stop after attempt k (exactly k
invocations recorded, counter k) with a normal return; a step failing on all
m attempts makes `retry` re-raise the last attempt's `StepFailure` after
exactly m invocations. -/
theorem retry_semantics (out : Nat → Bool) (name : String) (m k : Nat)
    (hk1 : 1 ≤ k) (hk2 : k ≤ m)
    (hf : ∀ j, j + 1 < k → out j = false) (hs : out (k - 1) = true)
    (out2 : Nat → Bool) (hm : 1 ≤ m) (hf2 : ∀ j, j < m → out2 j = false) :
    (retry out m name ⟨0, []⟩).succeeded = true ∧
    (retry out m name ⟨0, []⟩).stateOf.k = k ∧
    (retry out m name ⟨0, []⟩).stateOf.trace.length = k ∧
    (retry out2 m name ⟨0, []⟩).succeeded = false ∧
    (retry out2 m name ⟨0, []⟩).causeOf = some name ∧
    (retry out2 m name ⟨0, []⟩).stateOf.k = m ∧
    (retry out2 m name ⟨0, []⟩).stateOf.trace.length = m := by
  obtain ⟨tr, heq, hlen⟩ := retryGo_succeeds out name k m none ⟨0, []⟩ hk1 hk2
    (fun j hj => by simpa using hf j hj) (by simpa using hs)
  obtain ⟨tr2, heq2, hlen2⟩ := retryGo_all_fail out2 name m none ⟨0, []⟩ hm
    (fun j hj => by simpa using hf2 j hj)
  rw [retry, heq, retry, heq2]
  refine ⟨rfl, by simp [RetryResult.stateOf], ?_, rfl, rfl,
    by simp [RetryResult.stateOf], ?_⟩
  · simpa [RetryResult.stateOf] using hlen
  · simpa [RetryResult.stateOf] using hlen2

/-- Witness for C4: a step succeeding on its third of three attempts, and a
step failing on all three. -/
theorem retry_semantics_witness :
    (retry (fun i => decide (i = 2)) 3 "go mod download" ⟨0, []⟩).succeeded = true ∧
    (retry (fun i => decide (i = 2)) 3 "go mod download" ⟨0, []⟩).stateOf.k = 3 ∧
    (retry (fun i => decide (i = 2)) 3 "go mod download"
      ⟨0, []⟩).stateOf.trace.length = 3 ∧
    (retry (fun _ => false) 3 "go mod download" ⟨0, []⟩).succeeded = false ∧
    (retry (fun _ => false) 3 "go mod download" ⟨0, []⟩).causeOf
      = some "go mod download" ∧
    (retry (fun _ => false) 3 "go mod download" ⟨0, []⟩).stateOf.k = 3 ∧
    (retry (fun _ => false) 3 "go mod download" ⟨0, []⟩).stateOf.trace.length = 3 :=
  retry_semantics (fun i => decide (i = 2)) "go mod download" 3 3 (by decide)
    (by decide)
    (fun j hj => by
      match j with
      | 0 => rfl
      | 1 => rfl
      | j + 2 => omega)
    (by decide) (fun _ => false) (by decide) (fun _ _ => rfl)

/-- C9: calling `retry` with attempts = 0 runs the loop body zero times and
reaches the for-else `raise exc` with `exc` still `None`: the wrapped step is
never invoked (the state is returned untouched) and the call raises —
embedded as the `raiseNone` result — instead of returning normally. -/
theorem retry_zero_attempts_raises (out : Nat → Bool) (name : String) (s : St) :
    retry out 0 name s = .raiseNone s := rfl

/-! ## The Large-builder download-failure scenario (C5) -/

/-- C5 counterexample: builder "Infra-PerCommit-Large" with all three
`go mod download` attempts failing (invocations 4–6): the run does fail with
a non-zero exit code, but neither the emulator-start step nor the
emulator-stop step ever ran — the dependency fetch (src line 86) precedes the
emulator block (src lines 103–110), so its failure aborts the run before
either emulator step is reached. -/
theorem emulator_not_run_on_download_failure :
    ((RunSteps "Infra-PerCommit-Large" "sd" (fun i => decide (i < 4))).trace.map
      StepExec.name).contains startName = false ∧
    ((RunSteps "Infra-PerCommit-Large" "sd" (fun i => decide (i < 4))).trace.map
      StepExec.name).contains stopName = false :=
  ⟨rfl, rfl⟩

/-- C5 (amended): when builder "Infra-PerCommit-Large"'s dependency-fetch
step fails on all 3 retry attempts, the run's outcome is the propagated
`go mod download` failure with a non-zero exit code, the download step was
attempted exactly three times after the three git steps and `which go`, and
neither the emulator-start step nor the emulator-stop cleanup step ran or was
recorded. -/
theorem download_failure_outcome :
    (RunSteps "Infra-PerCommit-Large" "sd" (fun i => decide (i < 4))).outcome
      = .stepFailure dlName ∧
    exitCode (RunSteps "Infra-PerCommit-Large" "sd"
      (fun i => decide (i < 4))).outcome = 1 ∧
    (RunSteps "Infra-PerCommit-Large" "sd" (fun i => decide (i < 4))).trace
      = [⟨"git init", true⟩, ⟨"git add", true⟩, ⟨"git commit", true⟩,
         ⟨"which go", true⟩, ⟨dlName, false⟩, ⟨dlName, false⟩, ⟨dlName, false⟩] ∧
    ((RunSteps "Infra-PerCommit-Large" "sd" (fun i => decide (i < 4))).trace.map
      StepExec.name).contains startName = false ∧
    ((RunSteps "Infra-PerCommit-Large" "sd" (fun i => decide (i < 4))).trace.map
      StepExec.name).contains stopName = false :=
  ⟨rfl, rfl, rfl, rfl, rfl⟩

/-! ## Emulator environment injection (C7) -/

/-- Under all-success oracles the final `env` dict of the run is `envFinal`
(lines 106–115 all execute). -/
theorem RunSteps_env_all_ok (builder sd : String) (out : Nat → Bool)
    (h : ∀ i, out i = true) :
    (RunSteps builder sd out).env = envFinal builder sd := by
  cases hB : strContains builder "Build" <;>
    cases hL : strContains builder "Large" <;>
      cases hR : strContains builder "Race" <;>
        simp [RunSteps, runSeq, stepE, doStep, retry, retryGo, runBranch, finishRun,
          finishRun.finishOk, installSteps, installTargets, h, hB, hL, hR]

/-- C7 counterexample: the emulator override block adds FIVE emulator host
variables (datastore, bigtable, pubsub, firestore, cockroachdb — src lines
106–110), not four as the claim states. -/
theorem five_emulator_vars_not_four :
    (envKeys (injectEmulators (mkEnv "sd"))).length
      = (envKeys (mkEnv "sd")).length + 5 ∧
    ¬ (envKeys (injectEmulators (mkEnv "sd"))).length
      = (envKeys (mkEnv "sd")).length + 4 :=
  ⟨rfl, by decide⟩

/-- C7 (amended): for every builder name, the emulator-endpoint environment
overrides are injected if and only if the name contains "Large" or "Race",
and in that case exactly five additional emulator host variables are added to
the run environment (besides the unconditional `SKIABOT_TEST_DEPOT_TOOLS`),
each bound to a host:port string at a fixed local port. -/
theorem emulator_env_injection (builder sd : String) (out : Nat → Bool)
    (h : ∀ i, out i = true) :
    envKeys (RunSteps builder sd out).env
      = envKeys (mkEnv sd)
        ++ (if strContains builder "Large" || strContains builder "Race" then
              emulatorHosts.map Prod.fst else [])
        ++ ["SKIABOT_TEST_DEPOT_TOOLS"] ∧
    ∀ kv ∈ emulatorHosts,
      lookupEnv (RunSteps builder sd out).env kv.1
        = (if strContains builder "Large" || strContains builder "Race" then
            some kv.2 else none) := by
  rw [RunSteps_env_all_ok builder sd out h]
  rcases hLR : (strContains builder "Large" || strContains builder "Race")
  · constructor
    · simp only [envFinal, hLR, Bool.false_eq_true, if_false]
      rfl
    · intro kv hkv
      fin_cases hkv <;>
        (simp only [envFinal, hLR, Bool.false_eq_true, if_false]; rfl)
  · constructor
    · simp only [envFinal, hLR, if_true]
      rfl
    · intro kv hkv
      fin_cases hkv <;> (simp only [envFinal, hLR, if_true]; rfl)

/-- Witness for the amended C7 at a Large builder. -/
theorem emulator_env_injection_witness :
    envKeys (RunSteps "Infra-PerCommit-Large" "sd" (fun _ => true)).env
      = envKeys (mkEnv "sd")
        ++ (if strContains "Infra-PerCommit-Large" "Large"
              || strContains "Infra-PerCommit-Large" "Race" then
              emulatorHosts.map Prod.fst else [])
        ++ ["SKIABOT_TEST_DEPOT_TOOLS"] ∧
    lookupEnv (RunSteps "Infra-PerCommit-Large" "sd" (fun _ => true)).env
      "DATASTORE_EMULATOR_HOST"
      = (if strContains "Infra-PerCommit-Large" "Large"
          || strContains "Infra-PerCommit-Large" "Race" then
          some "localhost:8891" else none) :=
  ⟨(emulator_env_injection "Infra-PerCommit-Large" "sd" (fun _ => true)
      (fun _ => rfl)).1,
   (emulator_env_injection "Infra-PerCommit-Large" "sd" (fun _ => true)
      (fun _ => rfl)).2 ("DATASTORE_EMULATOR_HOST", "localhost:8891")
      (by simp [emulatorHosts])⟩

/-! ## EnvironmentBuilder purity and frame property (C8) -/

/-- Modelled from the spec: `EnvironmentBuilder.build` (spec §4.3) has no
implementation under src/ — the recipe builds its env dict inline — so it is
modelled from the spec's words: merge the base environment's `PATH` list by
prepending the new path segments (preserving existing entries), then apply
key-value overrides (later overrides win), returning a new mapping. -/
def EnvironmentBuilder.build (base : EnvMap) (overrides : EnvMap)
    (pathPrepend : List String) : EnvMap :=
  let basePath := (lookupEnv base "PATH").getD ""
  let merged := dinsert base "PATH"
    (String.intercalate ":" (pathPrepend ++ [basePath]))
  overrides.foldl (fun e kv => dinsert e kv.1 kv.2) merged

/-- Modelled from the spec: a store of environment mappings that makes
Python object identity explicit, so "must not mutate the base environment
(returns a new mapping)" becomes a provable frame property. -/
structure EnvStore where
  mem : List (Nat × EnvMap)
  next : Nat
deriving Repr, DecidableEq

/-- Every allocated reference is below the allocation counter. -/
def EnvStore.WF (st : EnvStore) : Prop := ∀ p ∈ st.mem, p.1 < st.next

def lookupStore : List (Nat × EnvMap) → Nat → Option EnvMap
  | [], _ => none
  | (k, m) :: rest, r => if k = r then some m else lookupStore rest r

/-- Dereference an environment mapping. -/
def readRef (st : EnvStore) (r : Nat) : Option EnvMap := lookupStore st.mem r

/-- Allocate a fresh reference holding `m`. -/
def allocRef (st : EnvStore) (m : EnvMap) : EnvStore × Nat :=
  (⟨st.mem ++ [(st.next, m)], st.next + 1⟩, st.next)

/-- Modelled from the spec: `build` reads the base mapping and allocates a
NEW mapping for its result; it never writes through the base reference. -/
def buildInStore (st : EnvStore) (baseRef : Nat) (overrides : EnvMap)
    (pathPrepend : List String) : EnvStore × Nat :=
  allocRef st
    (EnvironmentBuilder.build ((readRef st baseRef).getD []) overrides pathPrepend)

/-- A sequence of further `build` calls against the store. -/
def applyBuilds (st : EnvStore) : List (Nat × EnvMap × List String) → EnvStore
  | [] => st
  | (r, o, pp) :: rest => applyBuilds (buildInStore st r o pp).1 rest

theorem lookupStore_append_ne {mem : List (Nat × EnvMap)} {r n : Nat} {m : EnvMap}
    (h : r ≠ n) : lookupStore (mem ++ [(n, m)]) r = lookupStore mem r := by
  induction mem with
  | nil =>
    simp only [List.nil_append, lookupStore]
    rw [if_neg fun hh => h hh.symm]
  | cons p rest ih =>
    obtain ⟨k, mm⟩ := p
    simp only [List.cons_append, lookupStore]
    by_cases hk : k = r
    · simp [hk]
    · simp [hk, ih]

theorem lookupStore_none {mem : List (Nat × EnvMap)} {r : Nat}
    (h : ∀ p ∈ mem, p.1 ≠ r) : lookupStore mem r = none := by
  induction mem with
  | nil => rfl
  | cons p rest ih =>
    obtain ⟨k, mm⟩ := p
    simp only [lookupStore]
    rw [if_neg (h (k, mm) (by simp))]
    exact ih fun q hq => h q (by simp [hq])

theorem lookupStore_append_none {a b : List (Nat × EnvMap)} {r : Nat}
    (h : lookupStore a r = none) : lookupStore (a ++ b) r = lookupStore b r := by
  induction a with
  | nil => rfl
  | cons p rest ih =>
    obtain ⟨k, mm⟩ := p
    simp only [lookupStore] at h
    simp only [List.cons_append, lookupStore]
    by_cases hk : k = r
    · rw [if_pos hk] at h
      cases h
    · rw [if_neg hk] at h
      rw [if_neg hk]
      exact ih h

theorem readRef_alloc_other (st : EnvStore) (m : EnvMap) (r : Nat)
    (h : r < st.next) : readRef (allocRef st m).1 r = readRef st r :=
  lookupStore_append_ne (by omega)

theorem readRef_alloc_self (st : EnvStore) (m : EnvMap) (hwf : st.WF) :
    readRef (allocRef st m).1 st.next = some m := by
  show lookupStore (st.mem ++ [(st.next, m)]) st.next = some m
  rw [lookupStore_append_none (lookupStore_none fun p hp => by
    have := hwf p hp
    omega)]
  simp [lookupStore]

theorem WF_alloc (st : EnvStore) (m : EnvMap) (h : st.WF) :
    (allocRef st m).1.WF := by
  intro p hp
  rcases List.mem_append.mp hp with hm | hm
  · have := h p hm
    show p.1 < st.next + 1
    omega
  · rw [List.mem_singleton.mp hm]
    show st.next < st.next + 1
    omega

theorem applyBuilds_preserves (ops : List (Nat × EnvMap × List String)) :
    ∀ (st : EnvStore), st.WF → ∀ r, r < st.next →
    readRef (applyBuilds st ops) r = readRef st r := by
  induction ops with
  | nil => intro st _ r _; rfl
  | cons op rest ih =>
    intro st hwf r hr
    obtain ⟨r0, o0, p0⟩ := op
    have hwf' : (buildInStore st r0 o0 p0).1.WF := WF_alloc st _ hwf
    have hnext : (buildInStore st r0 o0 p0).1.next = st.next + 1 := rfl
    have h1 := ih (buildInStore st r0 o0 p0).1 hwf' r (by rw [hnext]; omega)
    show readRef (applyBuilds (buildInStore st r0 o0 p0).1 rest) r = readRef st r
    rw [h1]
    exact readRef_alloc_other st _ r hr

/-- C8 (spec-modelled): environment construction is pure with respect to its
base: building the run environment twice from identical inputs yields equal
mappings (and fresh, distinct references), the base environment mapping is
unchanged after the call, and it stays unchanged after any number of
subsequent environment constructions, so it can be reused across branches. -/
theorem environment_build_pure_frame (st : EnvStore) (baseRef : Nat)
    (o : EnvMap) (pp : List String) (ops : List (Nat × EnvMap × List String))
    (hwf : st.WF) (hbase : baseRef < st.next) :
    readRef (buildInStore (buildInStore st baseRef o pp).1 baseRef o pp).1
        (buildInStore st baseRef o pp).2
      = readRef (buildInStore (buildInStore st baseRef o pp).1 baseRef o pp).1
          (buildInStore (buildInStore st baseRef o pp).1 baseRef o pp).2 ∧
    readRef (buildInStore st baseRef o pp).1 baseRef = readRef st baseRef ∧
    (buildInStore st baseRef o pp).2 ≠ baseRef ∧
    readRef (applyBuilds (buildInStore st baseRef o pp).1 ops) baseRef
      = readRef st baseRef := by
  have frame1 : readRef (buildInStore st baseRef o pp).1 baseRef
      = readRef st baseRef := readRef_alloc_other st _ baseRef hbase
  have hwf1 : (buildInStore st baseRef o pp).1.WF := WF_alloc st _ hwf
  have hXeq : EnvironmentBuilder.build
        ((readRef (buildInStore st baseRef o pp).1 baseRef).getD []) o pp
      = EnvironmentBuilder.build ((readRef st baseRef).getD []) o pp := by
    rw [frame1]
  refine ⟨?_, frame1, ?_, ?_⟩
  · have hr1lt : (buildInStore st baseRef o pp).2 < (buildInStore st baseRef o pp).1.next := by
      show st.next < st.next + 1
      omega
    have hread1 : readRef (buildInStore (buildInStore st baseRef o pp).1 baseRef o pp).1
        (buildInStore st baseRef o pp).2
        = readRef (buildInStore st baseRef o pp).1 (buildInStore st baseRef o pp).2 :=
      readRef_alloc_other _ _ _ hr1lt
    have hread1' : readRef (buildInStore st baseRef o pp).1 (buildInStore st baseRef o pp).2
        = some (EnvironmentBuilder.build ((readRef st baseRef).getD []) o pp) :=
      readRef_alloc_self st _ hwf
    have hread2 : readRef (buildInStore (buildInStore st baseRef o pp).1 baseRef o pp).1
        (buildInStore (buildInStore st baseRef o pp).1 baseRef o pp).2
        = some (EnvironmentBuilder.build
            ((readRef (buildInStore st baseRef o pp).1 baseRef).getD []) o pp) :=
      readRef_alloc_self _ _ hwf1
    rw [hread1, hread1', hread2, hXeq]
  · show st.next ≠ baseRef
    omega
  · rw [applyBuilds_preserves ops _ hwf1 baseRef (by show baseRef < st.next + 1; omega)]
    exact frame1

/-- Witness for C8 at a concrete store and base environment. -/
theorem environment_build_pure_frame_witness :
    readRef (buildInStore (buildInStore ⟨[(0, [("PATH", "/usr/bin")])], 1⟩ 0
        [("FOO", "1")] ["/opt/bin"]).1 0 [("FOO", "1")] ["/opt/bin"]).1
        (buildInStore ⟨[(0, [("PATH", "/usr/bin")])], 1⟩ 0
          [("FOO", "1")] ["/opt/bin"]).2
      = readRef (buildInStore (buildInStore ⟨[(0, [("PATH", "/usr/bin")])], 1⟩ 0
          [("FOO", "1")] ["/opt/bin"]).1 0 [("FOO", "1")] ["/opt/bin"]).1
          (buildInStore (buildInStore ⟨[(0, [("PATH", "/usr/bin")])], 1⟩ 0
            [("FOO", "1")] ["/opt/bin"]).1 0 [("FOO", "1")] ["/opt/bin"]).2 ∧
    readRef (buildInStore ⟨[(0, [("PATH", "/usr/bin")])], 1⟩ 0
        [("FOO", "1")] ["/opt/bin"]).1 0
      = readRef ⟨[(0, [("PATH", "/usr/bin")])], 1⟩ 0 ∧
    (buildInStore ⟨[(0, [("PATH", "/usr/bin")])], 1⟩ 0
      [("FOO", "1")] ["/opt/bin"]).2 ≠ 0 ∧
    readRef (applyBuilds (buildInStore ⟨[(0, [("PATH", "/usr/bin")])], 1⟩ 0
        [("FOO", "1")] ["/opt/bin"]).1 [(0, [], [])]) 0
      = readRef ⟨[(0, [("PATH", "/usr/bin")])], 1⟩ 0 :=
  environment_build_pure_frame ⟨[(0, [("PATH", "/usr/bin")])], 1⟩ 0
    [("FOO", "1")] ["/opt/bin"] [(0, [], [])]
    (fun p hp => by fin_cases hp; decide) (by decide)

/-! ## PRESUBMIT.py: presubmit checks and their two entry points -/

/-- A presubmit result; the only constructor `PRESUBMIT.py` itself uses is
`PresubmitPromptWarning(message, long_text)`. -/
inductive CheckResult where
  | promptWarning (message : String) (longText : String)
deriving Repr, DecidableEq

/-- An affected file as seen through the input API: its local path, its raw
content lines as byte lists (what `_CheckNonAscii` reads back from disk in
binary mode), and its changed (line number, text) pairs. -/
structure AffectedFile where
  localPath : String
  lines : List (List Nat)
  changedContents : List (Nat × String)

/-- The external presubmit input API (`input_api`): file enumeration and
filtering, the canned checks, and regex search, modelled as opaque
collaborator functions taking the arguments `PRESUBMIT.py` passes them. -/
structure InputApi where
  affectedSourceFiles : (AffectedFile → Bool) → List AffectedFile
  filterSourceFile : AffectedFile → List String → List String → Bool
  defaultBlackList : List String
  runPylint : List String → List String → List CheckResult
  checkLongLines : Nat → (AffectedFile → Bool) → List CheckResult
  checkChangeTodoHasOwner : (AffectedFile → Bool) → List CheckResult
  checkChangeHasNoStrayWhitespace : (AffectedFile → Bool) → List CheckResult
  checkChangeHasNoTabs : List CheckResult
  reSearch : String → String → Option String

/-- The external output API (`output_api`). -/
structure OutputApi where
  presubmitPromptWarning : String → String → CheckResult

/-- `_MakeFileFilter` (src lines 12–33): include all files, or only the given
extensions; exclude nothing (`^$`), or the given extensions; delegate to
`input_api.FilterSourceFile` with the regex source strings. -/
def _MakeFileFilter (inputApi : InputApi) (includeExtensions : Option (List String))
    (excludeExtensions : Option (List String)) : AffectedFile → Bool :=
  let whiteList :=
    match includeExtensions with
    | some exts =>
      if exts.isEmpty then [".+"] else exts.map (fun e => ".+\\." ++ e ++ "$")
    | none => [".+"]
  let blackList :=
    match excludeExtensions with
    | some exts =>
      if exts.isEmpty then ["^$"] else exts.map (fun e => ".+\\." ++ e ++ "$")
    | none => ["^$"]
  fun f => inputApi.filterSourceFile f whiteList blackList

/-- Python's `line.decode('ascii')` raises iff some byte is ≥ 128. -/
def lineFailsAsciiDecode (line : List Nat) : Bool := line.any (fun b => 128 ≤ b)

def isSpaceByte (b : Nat) : Bool :=
  b == 32 || b == 9 || b == 10 || b == 13 || b == 11 || b == 12

/-- Python's `line.rstrip()` on a byte string. -/
def rstripBytes (line : List Nat) : List Nat :=
  (line.reverse.dropWhile isSpaceByte).reverse

/-- Display a byte string (Python 2 `%s` of a str). -/
def renderBytes (line : List Nat) : String :=
  String.mk (line.map Char.ofNat)

/-- Python's `str.rjust(width)`. -/
def rjust (s : String) (n : Nat) : String :=
  if s.length < n then String.mk (List.replicate (n - s.length) ' ') ++ s else s

/-- The (1-based line number, rstripped line) pairs of a file's non-ASCII
lines, as collected by the loop at src lines 49–55. -/
def fileUnicodeLines (af : AffectedFile) : List (Nat × List Nat) :=
  af.lines.enum.filterMap fun p =>
    if lineFailsAsciiDecode p.2 then some (p.1 + 1, rstripBytes p.2) else none

/-- `_CheckNonAscii` (src lines 35–73): scan the affected files with the
expected extensions, collect per-file non-ASCII lines and the longest file's
line count (for padding), and emit a single prompt warning listing them. -/
def _CheckNonAscii (inputApi : InputApi) (outputApi : OutputApi) : List CheckResult :=
  let FILE_EXTENSIONS := ["bat", "cfg", "cmd", "conf", "css", "gyp", "gypi", "htm",
    "html", "js", "json", "ps1", "py", "sh", "tac", "yaml"]
  let fileFilter := _MakeFileFilter inputApi (some FILE_EXTENSIONS) none
  let scan := (inputApi.affectedSourceFiles fileFilter).foldl
    (fun acc af =>
      let totalLines := af.lines.length
      let unicodeLines := fileUnicodeLines af
      if unicodeLines.isEmpty then acc
      else (acc.1 ++ [(af.localPath, unicodeLines)],
            if acc.2 < totalLines then totalLines else acc.2))
    (([] : List (String × List (Nat × List Nat))), 0)
  if scan.1.isEmpty then []
  else
    let padding := (toString scan.2).length
    let longText := scan.1.foldl
      (fun t fl =>
        (fl.2.foldl
          (fun t2 ln =>
            t2 ++ "    " ++ rjust (toString ln.1) padding ++ ": "
              ++ renderBytes ln.2 ++ "\n")
          (t ++ "  " ++ fl.1 ++ "\n")) ++ "\n")
      "The following files contain non-ASCII characters:\n"
    [outputApi.presubmitPromptWarning "Some files contain non-ASCII characters."
      longText]

/-- The banned-API regex/replacement table of src lines 82–95. -/
def bannedReplacements : List (String × String) :=
  [("\\breflect\\.DeepEqual\\b", "DeepEqual in go.skia.org/infra/go/testutils"),
   ("\\bgithub\\.com/golang/glog\\b", "go.skia.org/infra/go/sklog"),
   ("\\bgithub\\.com/skia-dev/glog\\b", "go.skia.org/infra/go/sklog"),
   ("\\bhttp\\.Get\\b", "NewTimeoutClient in go.skia.org/infra/go/httputils"),
   ("\\bhttp\\.Head\\b", "NewTimeoutClient in go.skia.org/infra/go/httputils"),
   ("\\bhttp\\.Post\\b", "NewTimeoutClient in go.skia.org/infra/go/httputils"),
   ("\\bhttp\\.PostForm\\b", "NewTimeoutClient in go.skia.org/infra/go/httputils"),
   ("\\bos\\.Interrupt\\b", "AtExit in go.skia.org/go/cleanup"),
   ("\\bsignal\\.Notify\\b", "AtExit in go.skia.org/go/cleanup"),
   ("\\bsyscall.SIGINT\\b", "AtExit in go.skia.org/go/cleanup"),
   ("\\bsyscall.SIGTERM\\b", "AtExit in go.skia.org/go/cleanup")]

/-- `_CheckBannedGoAPIs` (src lines 76–116): scan changed lines of affected
Go files against the banned-API table; a single prompt warning joins all the
error strings. -/
def _CheckBannedGoAPIs (inputApi : InputApi) (outputApi : OutputApi) :
    List CheckResult :=
  let fileFilter := _MakeFileFilter inputApi (some ["go"]) none
  let errors := (inputApi.affectedSourceFiles fileFilter).foldl
    (fun errs af =>
      af.changedContents.foldl
        (fun errs2 lc =>
          bannedReplacements.foldl
            (fun errs3 rr =>
              match inputApi.reSearch rr.1 lc.2 with
              | some matched =>
                errs3 ++ [af.localPath ++ ":" ++ toString lc.1 ++ ": Instead of "
                  ++ matched ++ ", please use " ++ rr.2 ++ "."]
              | none => errs3)
            errs2)
        errs)
    ([] : List String)
  if errors.isEmpty then []
  else [outputApi.presubmitPromptWarning (String.intercalate "\n" errors) ""]

/-- The pylint warnings disabled at src lines 141–150. -/
def pylintDisabledWarnings : List String :=
  ["F0401", "E0611", "W0232", "E1002", "W0403", "R0201", "E1003", "W0613"]

/-- `CheckChange` (src lines 119–177): pylint, long-line check (excluding
go/html/py), TODO-owner check, stray-whitespace check, no-tabs check (called
without a filter in the source, although one is built), and the banned Go
API check, concatenated in order. -/
def CheckChange (inputApi : InputApi) (outputApi : OutputApi) : List CheckResult :=
  let pylintBlacklist :=
    ["infra[\\\\\\/]bots[\\\\\\/]recipes.py",
     ".*[\\\\\\/]\\.recipe_deps[\\\\\\/].*",
     ".*[\\\\\\/]node_modules[\\\\\\/].*"]
    ++ inputApi.defaultBlackList
  let results := inputApi.runPylint pylintDisabledWarnings pylintBlacklist
  let IGNORE_LINE_LENGTH := ["go", "html", "py"]
  let results := results
    ++ inputApi.checkLongLines 100
      (_MakeFileFilter inputApi none (some IGNORE_LINE_LENGTH))
  let fileFilter := _MakeFileFilter inputApi none none
  let results := results ++ inputApi.checkChangeTodoHasOwner fileFilter
  let results := results ++ inputApi.checkChangeHasNoStrayWhitespace fileFilter
  let results := results ++ inputApi.checkChangeHasNoTabs
  results ++ _CheckBannedGoAPIs inputApi outputApi

/-- `CheckChangeOnUpload` (src lines 180–185). -/
def CheckChangeOnUpload (inputApi : InputApi) (outputApi : OutputApi) :
    List CheckResult :=
  let results := CheckChange inputApi outputApi
  results ++ _CheckNonAscii inputApi outputApi

/-- `CheckChangeOnCommit` (src lines 188–190). -/
def CheckChangeOnCommit (inputApi : InputApi) (outputApi : OutputApi) :
    List CheckResult :=
  CheckChange inputApi outputApi

/-- C10: for every input and output API, `CheckChangeOnCommit` returns
exactly the result list of `CheckChange`, and `CheckChangeOnUpload` returns
that same list extended with the non-ASCII warnings of `_CheckNonAscii`; the
two public entry points differ only by the non-ASCII check. -/
theorem presubmit_entry_points_refinement (inputApi : InputApi)
    (outputApi : OutputApi) :
    CheckChangeOnCommit inputApi outputApi = CheckChange inputApi outputApi ∧
    CheckChangeOnUpload inputApi outputApi
      = CheckChange inputApi outputApi ++ _CheckNonAscii inputApi outputApi :=
  ⟨rfl, rfl⟩
